import Mathlib

/-!
Verification of the per-session skill execution gate of the AgentBackend
repository (src/src/agents/BookAssistant.agent.ts) and of its callers: the
skill handlers and the POST /api/agent/skills/execute-all batch endpoint
(src/src/api/server.ts).

The embedding mirrors the TypeScript source:
* the `SkillExecutionGate` class becomes a state record; each method becomes a
  pure function threading that record (`startNewInput`, `canExecute`,
  `markCompleted`, `isAlreadyExecuted`, `getBlockedMessage`);
* the JS `Set<string>` of executed keys becomes a `List String` with a
  membership test (insertion only happens when the key is absent, as in the
  source), the JS `Map<string, string>` of results becomes an association list
  with overwrite-on-set semantics;
* JS string truthiness matters in `getBlockedMessage` (`if (result)`): a
  missing entry and the empty string both take the generic branch;
* JS `String.prototype.replace` with a string pattern replaces only the first
  occurrence, modelled by `jsReplaceFirst`;
* skill handlers call external services (filesystem, the Pinecone vector
  store, an HTTP metadata API).  Those collaborators are modelled as
  environment records whose fields return `Except String _` (a thrown JS
  error becomes `.error msg`); each handler records the external calls it
  actually performed as a list of `ExtEvent` and the gate operations it
  performed as a list of `GateEvent`.  Handler return values are modelled as
  strings (for `get_document_info`, the JSON-stringified record).
-/

/-- The private state of the `SkillExecutionGate` class
(BookAssistant.agent.ts lines 99-150): the set of executed
`inputId:skillName` keys, the current session id, the per-key result cache
and the has-any-skill-executed flag. -/
structure SkillExecutionGate where
  executedSkills : List String
  currentInputId : String
  skillResults : List (String × String)
  hasExecutedAnySkill : Bool
deriving Repr, DecidableEq

/-- The gate's state at construction time (`new SkillExecutionGate()`):
empty set, empty id, empty cache, flag down. -/
def initialGate : SkillExecutionGate :=
  { executedSkills := [], currentInputId := "", skillResults := [], hasExecutedAnySkill := false }

/-- JS `Map.prototype.set`: overwrite the binding of `k` in place if present,
otherwise append it. -/
def mapSet : List (String × String) → String → String → List (String × String)
  | [], k, v => [(k, v)]
  | (k0, v0) :: rest, k, v =>
      if k0 = k then (k, v) :: rest else (k0, v0) :: mapSet rest k v

/-- JS `Map.prototype.get`: the binding of `k`, or `none` (undefined). -/
def mapGet : List (String × String) → String → Option String
  | [], _ => none
  | (k0, v0) :: rest, k => if k0 = k then some v0 else mapGet rest k

/-- The composite key `` `${this.currentInputId}:${skillName}` `` used by
`canExecute`, `markCompleted`, `isAlreadyExecuted` and `getBlockedMessage`. -/
def gateKey (g : SkillExecutionGate) (skillName : String) : String :=
  g.currentInputId ++ ":" ++ skillName

/-- `startNewInput(inputId)` (lines 105-111): set the current session id,
clear the executed-key set and the result cache, reset the flag. -/
def startNewInput (g : SkillExecutionGate) (inputId : String) : SkillExecutionGate :=
  { executedSkills := [], currentInputId := inputId, skillResults := [],
    hasExecutedAnySkill := false }

/-- `canExecute(skillName)` (lines 113-129): deny if any skill already ran in
this session; deny if this session/skill key already ran; otherwise record
the key, raise the flag and grant.  Returns the boolean together with the
state after the call (the source mutates `this`). -/
def canExecute (g : SkillExecutionGate) (skillName : String) : Bool × SkillExecutionGate :=
  if g.hasExecutedAnySkill then (false, g)
  else if gateKey g skillName ∈ g.executedSkills then (false, g)
  else (true, { g with executedSkills := gateKey g skillName :: g.executedSkills,
                       hasExecutedAnySkill := true })

/-- `markCompleted(skillName, result)` (lines 131-135): store `result` in the
cache under the current session/skill key. -/
def markCompleted (g : SkillExecutionGate) (skillName result : String) : SkillExecutionGate :=
  { g with skillResults := mapSet g.skillResults (gateKey g skillName) result }

/-- `isAlreadyExecuted(skillName)` (lines 137-140). -/
def isAlreadyExecuted (g : SkillExecutionGate) (skillName : String) : Bool :=
  gateKey g skillName ∈ g.executedSkills

/-- JS `s.replace(pat, repl)` with a string pattern replaces only the first
occurrence of `pat`, on the underlying character list. -/
def replaceFirstList (pat repl : List Char) : List Char → List Char
  | [] => if pat.isEmpty then repl else []
  | c :: cs =>
      if pat.isPrefixOf (c :: cs) then repl ++ (c :: cs).drop pat.length
      else c :: replaceFirstList pat repl cs

/-- JS `String.prototype.replace` with a string pattern (first occurrence only). -/
def jsReplaceFirst (s pat repl : String) : String :=
  String.mk (replaceFirstList pat.toList repl.toList s.toList)

/-- The decoration `getBlockedMessage` strips from a cached result. -/
def taskCompleteTag : String := "✅ TASK COMPLETE:"

/-- The generic branch of `getBlockedMessage` (line 148). -/
def genericBlockedMessage (skillName : String) : String :=
  "✅ SUCCESS: The " ++ skillName ++
    " operation was already completed successfully in this session. No further action needed."

/-- `getBlockedMessage(skillName)` (lines 142-149): if a cached result exists
and is truthy (`if (result)` — the empty string is falsy in JS, like a
missing entry), build the message around it with the first "task complete"
decoration removed; otherwise the generic message. -/
def getBlockedMessage (g : SkillExecutionGate) (skillName : String) : String :=
  match mapGet g.skillResults (gateKey g skillName) with
  | some r =>
      if r = "" then genericBlockedMessage skillName
      else
        "✅ SUCCESS: Task was already completed successfully. " ++
          jsReplaceFirst r taskCompleteTag "" ++ " No further action needed."
  | none => genericBlockedMessage skillName

/-! ### A small operational layer over the gate

A `GateOp` is one call to a gate method; `applyOp` is its effect on the state
(`getBlockedMessage` reads but never writes, exactly as the source method
touches no field). -/

/-- One call to a gate method. -/
inductive GateOp where
  | start (inputId : String)
  | canExec (skillName : String)
  | markDone (skillName result : String)
  | getMsg (skillName : String)
deriving Repr, DecidableEq

/-- Does the operation start a new session? -/
def GateOp.isStart : GateOp → Bool
  | .start _ => true
  | _ => false

/-- The state after one gate call. -/
def applyOp (g : SkillExecutionGate) : GateOp → SkillExecutionGate
  | .start i => startNewInput g i
  | .canExec s => (canExecute g s).2
  | .markDone s r => markCompleted g s r
  | .getMsg _ => g

/-- The state after a sequence of gate calls. -/
def applyOps (g : SkillExecutionGate) : List GateOp → SkillExecutionGate
  | [] => g
  | op :: ops => applyOps (applyOp g op) ops

/-- The value a gate call returns to its caller, where observable as a string
(`getMsg` returns the blocked message; the others return nothing we track here). -/
def opOutput (g : SkillExecutionGate) : GateOp → Option String
  | .getMsg s => some (getBlockedMessage g s)
  | _ => none

/-- The returned values along a sequence of gate calls. -/
def runOutputs (g : SkillExecutionGate) : List GateOp → List (Option String)
  | [] => []
  | op :: ops => opOutput g op :: runOutputs (applyOp g op) ops

/-- How many calls in `ops`, run from `g`, are `canExecute K` calls that
return `true`. -/
def acquireTrueCount (g : SkillExecutionGate) : List GateOp → String → Nat
  | [], _ => 0
  | op :: ops, K =>
      let n := acquireTrueCount (applyOp g op) ops K
      match op with
      | .canExec s => if s = K ∧ (canExecute g s).1 = true then n + 1 else n
      | _ => n

/-! ### Basic gate lemmas -/

theorem canExecute_of_flag (g : SkillExecutionGate) (s : String)
    (h : g.hasExecutedAnySkill = true) : canExecute g s = (false, g) := by
  simp [canExecute, h]

theorem canExecute_denied_state (g : SkillExecutionGate) (s : String)
    (h : (canExecute g s).1 = false) : (canExecute g s).2 = g := by
  unfold canExecute at *
  split at h
  · simp [*] at *
  · split at h
    · simp_all
    · simp_all

theorem canExecute_granted_flag (g : SkillExecutionGate) (s : String)
    (h : (canExecute g s).1 = true) : ((canExecute g s).2).hasExecutedAnySkill = true := by
  unfold canExecute at *
  split at h
  · simp_all
  · split at h
    · simp_all
    · simp_all

theorem markCompleted_flag (g : SkillExecutionGate) (s r : String) :
    (markCompleted g s r).hasExecutedAnySkill = g.hasExecutedAnySkill := rfl

theorem flag_applyOp (g : SkillExecutionGate) (op : GateOp)
    (hop : op.isStart = false) (h : g.hasExecutedAnySkill = true) :
    (applyOp g op).hasExecutedAnySkill = true := by
  cases op with
  | start i => simp [GateOp.isStart] at hop
  | canExec s => simp [applyOp, canExecute, h]
  | markDone s r => simpa [applyOp, markCompleted_flag] using h
  | getMsg s => simpa [applyOp] using h

theorem flag_applyOps (g : SkillExecutionGate) (ops : List GateOp)
    (hops : ∀ op ∈ ops, op.isStart = false) (h : g.hasExecutedAnySkill = true) :
    (applyOps g ops).hasExecutedAnySkill = true := by
  induction ops generalizing g with
  | nil => simpa [applyOps] using h
  | cons op ops ih =>
      simp only [applyOps]
      exact ih (applyOp g op)
        (fun o ho => hops o (List.mem_cons_of_mem _ ho))
        (flag_applyOp g op (hops op (List.mem_cons_self _ _)) h)

/-- **C1.** Strict single-skill gating: once `canExecute` has granted a skill
`K1` in the current session, every later `canExecute` call — for `K1` or for
any other skill name `K2` — is denied, as long as no `startNewInput`
intervenes. -/
theorem c1_strict_single_skill_gating
    (g : SkillExecutionGate) (K1 K2 : String) (ops : List GateOp)
    (hacq : (canExecute g K1).1 = true)
    (hops : ∀ op ∈ ops, op.isStart = false) :
    (canExecute (applyOps (canExecute g K1).2 ops) K2).1 = false := by
  have h1 : ((canExecute g K1).2).hasExecutedAnySkill = true :=
    canExecute_granted_flag g K1 hacq
  have h2 : (applyOps (canExecute g K1).2 ops).hasExecutedAnySkill = true :=
    flag_applyOps _ ops hops h1
  rw [canExecute_of_flag _ _ h2]

/-- Witness for C1 at a concrete run: session "s", skill "a" granted, then a
`markCompleted` and a `getBlockedMessage`, then skill "b" is denied. -/
theorem c1_strict_single_skill_gating_witness :
    (canExecute
      (applyOps (canExecute (startNewInput initialGate "s") "a").2
        [GateOp.markDone "a" "done", GateOp.getMsg "a"]) "b").1 = false :=
  c1_strict_single_skill_gating (startNewInput initialGate "s") "a" "b"
    [GateOp.markDone "a" "done", GateOp.getMsg "a"]
    (by decide) (by decide)

theorem acquireTrueCount_zero (ops : List GateOp) (g : SkillExecutionGate) (K : String)
    (hops : ∀ op ∈ ops, op.isStart = false) (h : g.hasExecutedAnySkill = true) :
    acquireTrueCount g ops K = 0 := by
  induction ops generalizing g with
  | nil => rfl
  | cons op ops ih =>
      have hrest : ∀ o ∈ ops, o.isStart = false :=
        fun o ho => hops o (List.mem_cons_of_mem _ ho)
      have hflag := flag_applyOp g op (hops op (List.mem_cons_self _ _)) h
      have h0 := ih (applyOp g op) hrest hflag
      cases op with
      | start i =>
          have := hops _ (List.mem_cons_self _ _)
          simp [GateOp.isStart] at this
      | canExec s =>
          simp [acquireTrueCount, applyOp, canExecute_of_flag g s h, ih g hrest h]
      | markDone s r => simpa [acquireTrueCount] using h0
      | getMsg s => simpa [acquireTrueCount] using h0

theorem acquireTrueCount_le_one (ops : List GateOp) (g : SkillExecutionGate) (K : String)
    (hops : ∀ op ∈ ops, op.isStart = false) :
    acquireTrueCount g ops K ≤ 1 := by
  induction ops generalizing g with
  | nil => simp [acquireTrueCount]
  | cons op ops ih =>
      have hrest : ∀ o ∈ ops, o.isStart = false :=
        fun o ho => hops o (List.mem_cons_of_mem _ ho)
      cases op with
      | start i =>
          have := hops _ (List.mem_cons_self _ _)
          simp [GateOp.isStart] at this
      | canExec s =>
          by_cases hb : (canExecute g s).1 = true
          · have hflag := canExecute_granted_flag g s hb
            have h0 := acquireTrueCount_zero ops ((canExecute g s).2) K hrest hflag
            by_cases hs : s = K
            · subst hs
              simp [acquireTrueCount, applyOp, hb, h0]
            · simp [acquireTrueCount, applyOp, hs, h0]
          · have hst : (canExecute g s).2 = g :=
              canExecute_denied_state g s (by simpa using hb)
            simp only [acquireTrueCount, applyOp, hst, hb]
            simpa using ih g hrest
      | markDone s r => simpa [acquireTrueCount, applyOp] using ih _ hrest
      | getMsg s => simpa [acquireTrueCount, applyOp] using ih _ hrest

theorem nodup_applyOp (g : SkillExecutionGate) (op : GateOp)
    (h : g.executedSkills.Nodup) : (applyOp g op).executedSkills.Nodup := by
  cases op with
  | start i => simp [applyOp, startNewInput]
  | canExec s =>
      simp only [applyOp]
      unfold canExecute
      split
      · simpa using h
      · split
        · simpa using h
        · next hmem =>
            simpa using List.nodup_cons.mpr ⟨hmem, h⟩
  | markDone s r => exact h
  | getMsg s => exact h

theorem nodup_applyOps (g : SkillExecutionGate) (ops : List GateOp)
    (h : g.executedSkills.Nodup) : (applyOps g ops).executedSkills.Nodup := by
  induction ops generalizing g with
  | nil => exact h
  | cons op ops ih => exact ih (applyOp g op) (nodup_applyOp g op h)

/-- **C2 counterexample.** The claim quantifies over all interleavings,
including repeated `startNewInput` with the same session id: there, the code
grants twice for the same `(sessionId, skillName) = ("s", "k")` key, because
`startNewInput` fully clears the executed-key set. -/
theorem c2_counterexample_repeated_session_id :
    (canExecute (startNewInput initialGate "s") "k").1 = true ∧
    (canExecute (startNewInput
        (canExecute (startNewInput initialGate "s") "k").2 "s") "k").1 = true := by
  decide

/-- **C2 (amended).** Within one session span (a run of gate calls with no
intervening `startNewInput`), `canExecute` returns `true` at most once per
skill name; and the invocation-record set never holds duplicate
`(sessionId, skillName)` keys.  Across a repeated `startNewInput` with the
same session id the count can restart (see the counterexample). -/
theorem c2_amended_at_most_once_per_session_span
    (g : SkillExecutionGate) (ops : List GateOp) (K : String)
    (hnd : g.executedSkills.Nodup) :
    ((∀ op ∈ ops, op.isStart = false) → acquireTrueCount g ops K ≤ 1) ∧
    (applyOps g ops).executedSkills.Nodup :=
  ⟨fun hops => acquireTrueCount_le_one ops g K hops, nodup_applyOps g ops hnd⟩

/-- Witness for C2 (amended): two `canExecute "k"` calls in one session of a
fresh gate grant at most once, and the record set stays duplicate-free. -/
theorem c2_amended_witness :
    ((∀ op ∈ [GateOp.canExec "k", GateOp.canExec "k"], op.isStart = false) →
      acquireTrueCount (startNewInput initialGate "s")
        [GateOp.canExec "k", GateOp.canExec "k"] "k" ≤ 1) ∧
    (applyOps (startNewInput initialGate "s")
      [GateOp.canExec "k", GateOp.canExec "k"]).executedSkills.Nodup :=
  c2_amended_at_most_once_per_session_span (startNewInput initialGate "s")
    [GateOp.canExec "k", GateOp.canExec "k"] "k" (by decide)

/-- **C3.** `startNewInput` fully resets the gate: it empties the invocation
records and the cached results, installs the new session id, lowers the
has-executed flag, and consequently the next `canExecute` grants any skill
name, whatever the previous state was. -/
theorem c3_full_reset_on_start_session (g : SkillExecutionGate) (S2 K : String) :
    (startNewInput g S2).executedSkills = [] ∧
    (startNewInput g S2).skillResults = [] ∧
    (startNewInput g S2).currentInputId = S2 ∧
    (startNewInput g S2).hasExecutedAnySkill = false ∧
    (canExecute (startNewInput g S2) K).1 = true := by
  refine ⟨rfl, rfl, rfl, rfl, ?_⟩
  simp [canExecute, startNewInput]

theorem mapGet_mapSet_self (m : List (String × String)) (k v : String) :
    mapGet (mapSet m k v) k = some v := by
  induction m with
  | nil => simp [mapSet, mapGet]
  | cons p rest ih =>
      obtain ⟨k0, v0⟩ := p
      by_cases h : k0 = k
      · simp [mapSet, mapGet, h]
      · simp [mapSet, mapGet, h, ih]

theorem mapGet_mapSet_ne (m : List (String × String)) (k k2 v : String) (h : k2 ≠ k) :
    mapGet (mapSet m k v) k2 = mapGet m k2 := by
  induction m with
  | nil => simp [mapSet, mapGet, Ne.symm h]
  | cons p rest ih =>
      obtain ⟨k0, v0⟩ := p
      by_cases h0 : k0 = k
      · subst h0
        simp [mapSet, mapGet, Ne.symm h]
      · simp [mapSet, mapGet, h0, ih]

theorem mapSet_mapSet_same (m : List (String × String)) (k v1 v2 : String) :
    mapSet (mapSet m k v1) k v2 = mapSet m k v2 := by
  induction m with
  | nil => simp [mapSet]
  | cons p rest ih =>
      obtain ⟨k0, v0⟩ := p
      by_cases h : k0 = k
      · simp [mapSet, h]
      · simp [mapSet, h, ih]

theorem append3_ne_empty (a b c : String) (h : a.length ≠ 0) : a ++ b ++ c ≠ "" := by
  intro he
  have hlen := congrArg String.length he
  simp only [String.length_append] at hlen
  have h0 : ("" : String).length = 0 := rfl
  omega

theorem genericBlockedMessage_ne_empty (s : String) : genericBlockedMessage s ≠ "" := by
  unfold genericBlockedMessage
  exact append3_ne_empty _ _ _ (by decide)

theorem getBlockedMessage_ne_empty (g : SkillExecutionGate) (s : String) :
    getBlockedMessage g s ≠ "" := by
  unfold getBlockedMessage
  split
  · split
    · exact genericBlockedMessage_ne_empty s
    · exact append3_ne_empty _ _ _ (by decide)
  · exact genericBlockedMessage_ne_empty s

/-- **C7.** Gate totality: each gate operation is a pure, total state
transition for every string input — the session id, skill name and result
strings are unconstrained (they may be empty or name a skill outside the
registry) and no operation has an error branch: `canExecute` either denies
and leaves the state untouched or grants and records the key,
`startNewInput` and `markCompleted` each produce exactly their one outcome,
and `getBlockedMessage` always returns a (nonempty) message. -/
theorem c7_gate_totality (g : SkillExecutionGate) (s r : String) :
    (canExecute g s = (false, g) ∨
      canExecute g s = (true,
        { g with executedSkills := gateKey g s :: g.executedSkills,
                 hasExecutedAnySkill := true })) ∧
    startNewInput g s =
      { executedSkills := [], currentInputId := s, skillResults := [],
        hasExecutedAnySkill := false } ∧
    markCompleted g s r = { g with skillResults := mapSet g.skillResults (gateKey g s) r } ∧
    getBlockedMessage g s ≠ "" := by
  refine ⟨?_, rfl, rfl, getBlockedMessage_ne_empty g s⟩
  unfold canExecute
  split
  · left; rfl
  · split
    · left; rfl
    · right; rfl

/-- **C8.** `getBlockedMessage` is read-only and idempotent: any number of
successive calls leaves the gate state unchanged and returns the same
message every time. -/
theorem c8_describe_blocked_read_only_idempotent
    (g : SkillExecutionGate) (K : String) (n : Nat) :
    applyOps g (List.replicate n (GateOp.getMsg K)) = g ∧
    runOutputs g (List.replicate n (GateOp.getMsg K)) =
      List.replicate n (some (getBlockedMessage g K)) := by
  induction n with
  | zero => exact ⟨rfl, rfl⟩
  | succ n ih =>
      refine ⟨?_, ?_⟩
      · simpa only [List.replicate_succ, applyOps, applyOp] using ih.1
      · simp only [List.replicate_succ, runOutputs, applyOp, opOutput]
        rw [ih.2]

/-- **C9.** Frame of `markCompleted`: it touches only the cached-result entry
of the current session/skill key — the invocation records, the
has-executed flag and the session id are unchanged, every other cache key is
unchanged, and any subsequent `canExecute` returns exactly what it would
have returned without the `markCompleted` call. -/
theorem c9_frame_of_record_result (g : SkillExecutionGate) (K r K2 k2 : String) :
    (markCompleted g K r).executedSkills = g.executedSkills ∧
    (markCompleted g K r).hasExecutedAnySkill = g.hasExecutedAnySkill ∧
    (markCompleted g K r).currentInputId = g.currentInputId ∧
    (k2 ≠ gateKey g K →
      mapGet (markCompleted g K r).skillResults k2 = mapGet g.skillResults k2) ∧
    (canExecute (markCompleted g K r) K2).1 = (canExecute g K2).1 := by
  refine ⟨rfl, rfl, rfl, fun h => mapGet_mapSet_ne _ _ _ _ h, ?_⟩
  by_cases hf : g.hasExecutedAnySkill
  · simp [canExecute, markCompleted, hf]
  · by_cases hm : g.currentInputId ++ ":" ++ K2 ∈ g.executedSkills
    · simp [canExecute, markCompleted, gateKey, hf, hm]
    · simp [canExecute, markCompleted, gateKey, hf, hm]

/-- **C10.** `markCompleted` is last-write-wins: a second `markCompleted` for
the same skill in the same session overwrites the first in place, the cache
then holds only the second result, and `getBlockedMessage` afterwards is
exactly what it would be had only the second result been recorded. -/
theorem c10_record_result_last_write_wins (g : SkillExecutionGate) (K r1 r2 : String) :
    mapGet (markCompleted (markCompleted g K r1) K r2).skillResults (gateKey g K) = some r2 ∧
    markCompleted (markCompleted g K r1) K r2 = markCompleted g K r2 ∧
    getBlockedMessage (markCompleted (markCompleted g K r1) K r2) K =
      getBlockedMessage (markCompleted g K r2) K := by
  have hcollapse : markCompleted (markCompleted g K r1) K r2 = markCompleted g K r2 := by
    simp [markCompleted, gateKey, mapSet_mapSet_same]
  refine ⟨?_, hcollapse, by rw [hcollapse]⟩
  rw [hcollapse]
  exact mapGet_mapSet_self _ _ _

theorem getBlockedMessage_markCompleted (g : SkillExecutionGate) (K X : String)
    (hX : X ≠ "") :
    getBlockedMessage (markCompleted g K X) K =
      "✅ SUCCESS: Task was already completed successfully. " ++
        jsReplaceFirst X taskCompleteTag "" ++ " No further action needed." := by
  unfold getBlockedMessage
  rw [show gateKey (markCompleted g K X) K = gateKey g K from rfl,
    show (markCompleted g K X).skillResults = mapSet g.skillResults (gateKey g K) X from rfl,
    mapGet_mapSet_self]
  simp [hX]

/-- **C4.** Blocked-message content: after `markCompleted K X` in the current
session, `getBlockedMessage K` contains the normalized derivative of `X`
(`X` with the first "task complete" decoration stripped — equal to `X` when
no decoration is present); with no cached result for `K` in the current
session it returns the generic nonempty already-completed message.  (When
`X` is the empty string, JS truthiness sends `getBlockedMessage` to the
generic branch, which still trivially contains the empty derivative.) -/
theorem c4_blocked_message_content (g : SkillExecutionGate) (K X : String) :
    (jsReplaceFirst X taskCompleteTag "").data <:+:
        (getBlockedMessage (markCompleted g K X) K).data ∧
    (mapGet g.skillResults (gateKey g K) = none →
      getBlockedMessage g K = genericBlockedMessage K ∧
        genericBlockedMessage K ≠ "") := by
  constructor
  · by_cases hX : X = ""
    · subst hX
      have h0 : jsReplaceFirst "" taskCompleteTag "" = "" := by decide
      rw [h0]
      exact List.nil_infix
    · rw [getBlockedMessage_markCompleted g K X hX]
      exact ⟨"✅ SUCCESS: Task was already completed successfully. ".data,
        " No further action needed.".data, by simp [String.data_append]⟩
  · intro h
    refine ⟨?_, genericBlockedMessage_ne_empty K⟩
    unfold getBlockedMessage
    rw [h]

/-! ### Skill handlers

Each handler (BookAssistant.agent.ts) checks the gate, performs its external
work through an environment of collaborators, and reports its outcome back
through `markCompleted`.  A handler run yields the returned string, the gate
state after the run, the gate calls performed (`GateEvent`) and the external
calls performed (`ExtEvent`). -/

/-- One externally visible call made by a handler. -/
inductive ExtEvent where
  | fsExists (filePath : String)
  | pdfParse (filePath : String)
  | vdbSearch (query : String) (topK : Nat)
  | vdbInsertDoc (name : String)
  | vdbPurge
  | vdbDescribeStats
  | vdbDeleteNamespace (ns : String)
  | httpFetch (url : String)
deriving Repr, DecidableEq

/-- One gate interaction performed by a caller of the gate. -/
inductive GateEvent where
  | started (inputId : String)
  | acquire (skillName : String) (granted : Bool)
  | completed (skillName result : String)
deriving Repr, DecidableEq

/-- Is this gate interaction a `startNewInput` call? -/
def GateEvent.isStarted : GateEvent → Bool
  | .started _ => true
  | _ => false

/-- The observable outcome of one handler invocation. -/
structure HandlerOut where
  ret : String
  gate : SkillExecutionGate
  events : List GateEvent
  ext : List ExtEvent
deriving Repr, DecidableEq

/-- POSIX model of Node's `path.isAbsolute`. -/
def isAbsolutePath (p : String) : Bool := p.startsWith "/"

/-- Model of `path.resolve(dir, rel)` for a relative `rel`: join with a slash. -/
def joinPath (dir rel : String) : String := dir ++ "/" ++ rel

/-- The regex replace `/^agentbackend\//` of the index handler: strip one
leading `agentbackend/`. -/
def stripAgentbackend (p : String) : String :=
  if p.startsWith "agentbackend/" then p.drop "agentbackend/".length else p

/-- `path.basename`: the last slash-separated component. -/
def basename (p : String) : String := (p.splitOn "/").getLastD p

/-- JS `a || b` over strings where `""` stands for any falsy value
(undefined or the empty string). -/
def jsOr (a b : String) : String := if a = "" then b else a

/-- External collaborators of `index_document` (lines 191-279):
`fs.existsSync`, `Doc.pdf.parse` (`.error` = thrown), the connection-test
`pinecone.search('test', topK 1)`, and `pinecone.insertDoc` (`.ok b` is the
truthiness of the returned result, `.error` = thrown). -/
structure IndexEnv where
  fileExists : String → Bool
  parsePdf : String → Except String Unit
  testSearch : Except String Unit
  insertDoc : String → Except String Bool

/-- The `index_document` handler (lines 191-279). -/
def indexDocumentProcess (env : IndexEnv) (cwd document_path : String)
    (g : SkillExecutionGate) : HandlerOut :=
  let a := canExecute g "index_document"
  if a.1 then
    let processedPath :=
      if !isAbsolutePath document_path && !document_path.startsWith "data/"
          && !document_path.contains '/' then
        "data/" ++ document_path
      else document_path
    let filePath :=
      if isAbsolutePath processedPath then processedPath
      else joinPath cwd (stripAgentbackend processedPath)
    if !env.fileExists filePath then
      let errorMsg := "File resolved path to " ++ filePath ++ " does not exist"
      ⟨errorMsg, markCompleted a.2 "index_document" errorMsg,
        [.acquire "index_document" true, .completed "index_document" errorMsg],
        [.fsExists filePath]⟩
    else
      match env.parsePdf filePath with
      | .error e =>
          let errorMsg := "❌ Error indexing document: " ++ e
          ⟨errorMsg, markCompleted a.2 "index_document" errorMsg,
            [.acquire "index_document" true, .completed "index_document" errorMsg],
            [.fsExists filePath, .pdfParse filePath]⟩
      | .ok _ =>
          let name := basename filePath
          match env.testSearch with
          | .error connMsg =>
              let errorMsg := "Pinecone connection failed: " ++ connMsg
              ⟨errorMsg, markCompleted a.2 "index_document" errorMsg,
                [.acquire "index_document" true, .completed "index_document" errorMsg],
                [.fsExists filePath, .pdfParse filePath, .vdbSearch "test" 1]⟩
          | .ok _ =>
              match env.insertDoc name with
              | .error e =>
                  let errorMsg := "❌ Error indexing document: " ++ e
                  ⟨errorMsg, markCompleted a.2 "index_document" errorMsg,
                    [.acquire "index_document" true, .completed "index_document" errorMsg],
                    [.fsExists filePath, .pdfParse filePath, .vdbSearch "test" 1,
                      .vdbInsertDoc name]⟩
              | .ok true =>
                  let successMsg := "✅ TASK COMPLETE: Document " ++ name ++
                    " has been successfully indexed in the vector database. The indexing operation is finished. Do not perform any additional actions."
                  ⟨successMsg, markCompleted a.2 "index_document" successMsg,
                    [.acquire "index_document" true, .completed "index_document" successMsg],
                    [.fsExists filePath, .pdfParse filePath, .vdbSearch "test" 1,
                      .vdbInsertDoc name]⟩
              | .ok false =>
                  let failMsg := "❌ Document " ++ name ++
                    " indexing failed - no result returned"
                  ⟨failMsg, markCompleted a.2 "index_document" failMsg,
                    [.acquire "index_document" true, .completed "index_document" failMsg],
                    [.fsExists filePath, .pdfParse filePath, .vdbSearch "test" 1,
                      .vdbInsertDoc name]⟩
  else
    ⟨getBlockedMessage g "index_document", g, [.acquire "index_document" false], []⟩

/-- One hit returned by `pinecone.search`; `""` stands for a missing (falsy)
field, matching the JS `||` fallback chain.  The `metadata` fields are
flattened into the record. -/
structure SearchHit where
  text : String
  content : String
  pageContent : String
  metaFileName : String
  metaDatasourceLabel : String
deriving Repr, DecidableEq

/-- External collaborator of `lookup_document`: `pinecone.search`
(query, topK). -/
structure LookupEnv where
  search : String → Nat → Except String (List SearchHit)

/-- The `lookup_document` handler (lines 289-335). -/
def lookupDocumentProcess (env : LookupEnv) (user_query : String)
    (g : SkillExecutionGate) : HandlerOut :=
  let a := canExecute g "lookup_document"
  if a.1 then
    match env.search user_query 3 with
    | .error e =>
        let errorMsg := "❌ Error searching documents: " ++ e
        ⟨errorMsg, markCompleted a.2 "lookup_document" errorMsg,
          [.acquire "lookup_document" true, .completed "lookup_document" errorMsg],
          [.vdbSearch user_query 3]⟩
    | .ok [] =>
        let noResultMsg := "❌ No relevant content found in the indexed documents. Please make sure documents are indexed first using the 'index_document' skill."
        ⟨noResultMsg, markCompleted a.2 "lookup_document" noResultMsg,
          [.acquire "lookup_document" true, .completed "lookup_document" noResultMsg],
          [.vdbSearch user_query 3]⟩
    | .ok (firstResult :: _) =>
        let text := jsOr firstResult.text (jsOr firstResult.content
          (jsOr firstResult.pageContent "No text found in result"))
        let source := jsOr firstResult.metaFileName
          (jsOr firstResult.metaDatasourceLabel "PDF Document")
        let response := "✅ SEARCH COMPLETE: Found relevant content from " ++ source ++
          ":\n\n" ++ text ++
          "\n\nThe search operation is finished. Do not perform any additional actions."
        ⟨response, markCompleted a.2 "lookup_document" response,
          [.acquire "lookup_document" true, .completed "lookup_document" response],
          [.vdbSearch user_query 3]⟩
  else
    ⟨getBlockedMessage g "lookup_document", g, [.acquire "lookup_document" false], []⟩

/-- External collaborator of `get_document_info`: the openlibrary fetch plus
JSON decode; `.ok docs` is the `data.docs` array, each element abstracted as
its JSON-stringified form; a thrown fetch/decode/access error is `.error`. -/
structure InfoEnv where
  fetchDocs : String → Except String (List String)

/-- The `get_document_info` handler (lines 407-432).  `docs.headD ""` models
`data.docs[0]` where `""` stands for `undefined` when the array is empty
(both are falsy where the cached result is later read). -/
def getDocumentInfoProcess (env : InfoEnv) (document_name : String)
    (g : SkillExecutionGate) : HandlerOut :=
  let a := canExecute g "get_document_info"
  if a.1 then
    let url := "https://openlibrary.org/search.json?q=" ++ document_name
    match env.fetchDocs url with
    | .error e =>
        let errorMsg := "Error fetching document info: " ++ e
        ⟨errorMsg, markCompleted a.2 "get_document_info" errorMsg,
          [.acquire "get_document_info" true, .completed "get_document_info" errorMsg],
          [.httpFetch url]⟩
    | .ok docs =>
        let result := docs.headD ""
        ⟨result, markCompleted a.2 "get_document_info" result,
          [.acquire "get_document_info" true, .completed "get_document_info" result],
          [.httpFetch url]⟩
  else
    ⟨getBlockedMessage g "get_document_info", g, [.acquire "get_document_info" false], []⟩

/-- External collaborators of `purge_documents` (lines 360-396 with the
helper `purgeAllNamespacesDirect`, lines 338-357): the SDK-scoped
`pinecone.purge()`, the `PINECONE_API_KEY` presence check, the index's
`describeIndexStats` (`.ok` = its namespace names) and the per-namespace
`deleteAll` (whose failures are only warned about and skip the namespace). -/
structure PurgeEnv where
  hasApiKey : Bool
  sdkPurge : Except String Unit
  describeStats : Except String (List String)
  deleteNamespace : String → Except String Unit

/-- Did the per-namespace `deleteAll` succeed? -/
def deleteOk (e : Except String Unit) : Bool :=
  match e with
  | .ok _ => true
  | .error _ => false

/-- The `purge_documents` handler (lines 360-396). -/
def purgeDocumentsProcess (env : PurgeEnv) (g : SkillExecutionGate) : HandlerOut :=
  let a := canExecute g "purge_documents"
  if a.1 then
    match env.sdkPurge with
    | .error e =>
        let errorMsg := "Failed to delete documents: " ++ e
        ⟨errorMsg, markCompleted a.2 "purge_documents" errorMsg,
          [.acquire "purge_documents" true, .completed "purge_documents" errorMsg],
          [.vdbPurge]⟩
    | .ok _ =>
        if !env.hasApiKey then
          let errorMsg := "Failed to delete documents: Missing PINECONE_API_KEY"
          ⟨errorMsg, markCompleted a.2 "purge_documents" errorMsg,
            [.acquire "purge_documents" true, .completed "purge_documents" errorMsg],
            [.vdbPurge]⟩
        else
          match env.describeStats with
          | .error e =>
              let errorMsg := "Failed to delete documents: " ++ e
              ⟨errorMsg, markCompleted a.2 "purge_documents" errorMsg,
                [.acquire "purge_documents" true, .completed "purge_documents" errorMsg],
                [.vdbPurge, .vdbDescribeStats]⟩
          | .ok namespaces =>
              let purged := namespaces.filter (fun ns => deleteOk (env.deleteNamespace ns))
              let successMsg := "✅ DELETION COMPLETE: All PDF documents have been successfully removed from the vector database. The database is now empty. (Purged " ++
                toString purged.length ++ " namespaces: " ++ String.intercalate ", " purged ++
                ") Do not perform any additional actions."
              ⟨successMsg, markCompleted a.2 "purge_documents" successMsg,
                [.acquire "purge_documents" true, .completed "purge_documents" successMsg],
                [.vdbPurge, .vdbDescribeStats] ++ namespaces.map ExtEvent.vdbDeleteNamespace⟩
  else
    ⟨getBlockedMessage g "purge_documents", g, [.acquire "purge_documents" false], []⟩

/-- The contract every skill handler keeps with the gate: its first action is
the `canExecute` check; when denied it returns `getBlockedMessage` verbatim,
performs no gate write and no external work, and leaves the gate untouched;
when granted, its gate interactions are exactly the grant followed by one
`markCompleted` with the returned outcome, on every exit path. -/
def handlerContract (run : SkillExecutionGate → HandlerOut) (name : String) : Prop :=
  ∀ g : SkillExecutionGate,
    ((canExecute g name).1 = false →
      run g = ⟨getBlockedMessage g name, g, [.acquire name false], []⟩) ∧
    ((canExecute g name).1 = true →
      (run g).events = [.acquire name true, .completed name ((run g).ret)] ∧
      (run g).gate = markCompleted (canExecute g name).2 name ((run g).ret))

theorem indexDocumentProcess_contract (env : IndexEnv) (cwd p : String) :
    handlerContract (indexDocumentProcess env cwd p) "index_document" := by
  intro g
  constructor
  · intro h
    simp [indexDocumentProcess, h]
  · intro h
    simp only [indexDocumentProcess, h, if_true]
    constructor <;> (repeat' split) <;> rfl

theorem lookupDocumentProcess_contract (env : LookupEnv) (q : String) :
    handlerContract (lookupDocumentProcess env q) "lookup_document" := by
  intro g
  constructor
  · intro h
    simp [lookupDocumentProcess, h]
  · intro h
    simp only [lookupDocumentProcess, h, if_true]
    constructor <;> (repeat' split) <;> rfl

theorem getDocumentInfoProcess_contract (env : InfoEnv) (d : String) :
    handlerContract (getDocumentInfoProcess env d) "get_document_info" := by
  intro g
  constructor
  · intro h
    simp [getDocumentInfoProcess, h]
  · intro h
    simp only [getDocumentInfoProcess, h, if_true]
    constructor <;> (repeat' split) <;> rfl

theorem purgeDocumentsProcess_contract (env : PurgeEnv) :
    handlerContract (purgeDocumentsProcess env) "purge_documents" := by
  intro g
  constructor
  · intro h
    simp [purgeDocumentsProcess, h]
  · intro h
    simp only [purgeDocumentsProcess, h, if_true]
    constructor <;> (repeat' split) <;> rfl

/-- **C5.** Handler-gate contract: each modelled skill handler (`index_document`,
`lookup_document`, `get_document_info`, `purge_documents`) checks `canExecute`
with its own skill name as its first action; when denied it returns the gate's
`getBlockedMessage` string verbatim with no external call and no state change;
when granted, every exit path — success, zero-hit/no-result, or caught
error — performs exactly one `markCompleted` with the outcome before
returning. -/
theorem c5_handler_gate_contract
    (ienv : IndexEnv) (cwd document_path : String) (lenv : LookupEnv)
    (user_query : String) (fenv : InfoEnv) (document_name : String)
    (penv : PurgeEnv) :
    handlerContract (indexDocumentProcess ienv cwd document_path) "index_document" ∧
    handlerContract (lookupDocumentProcess lenv user_query) "lookup_document" ∧
    handlerContract (getDocumentInfoProcess fenv document_name) "get_document_info" ∧
    handlerContract (purgeDocumentsProcess penv) "purge_documents" :=
  ⟨indexDocumentProcess_contract ienv cwd document_path,
   lookupDocumentProcess_contract lenv user_query,
   getDocumentInfoProcess_contract fenv document_name,
   purgeDocumentsProcess_contract penv⟩

/-! ### The execute-all batch endpoint -/

/-- One entry of an execute-all batch: a modelled skill name together with
its parameters. -/
inductive SkillCall where
  | indexDoc (document_path : String)
  | lookupDoc (user_query : String)
  | docInfo (document_name : String)
  | purgeDocs
deriving Repr, DecidableEq

/-- The skill name of a batch entry. -/
def SkillCall.name : SkillCall → String
  | .indexDoc _ => "index_document"
  | .lookupDoc _ => "lookup_document"
  | .docInfo _ => "get_document_info"
  | .purgeDocs => "purge_documents"

/-- All collaborator environments of the agent, plus the working directory. -/
structure AgentEnv where
  cwd : String
  index : IndexEnv
  lookup : LookupEnv
  info : InfoEnv
  purge : PurgeEnv

/-- `BookAssistantAgent.call(skillName, parameters)` restricted to the
modelled skills: dispatch to the named handler. -/
def agentCall (env : AgentEnv) (c : SkillCall) (g : SkillExecutionGate) : HandlerOut :=
  match c with
  | .indexDoc p => indexDocumentProcess env.index env.cwd p g
  | .lookupDoc q => lookupDocumentProcess env.lookup q g
  | .docInfo d => getDocumentInfoProcess env.info d g
  | .purgeDocs => purgeDocumentsProcess env.purge g

/-- The loop of the execute-all endpoint: run each entry in order, threading
the gate state; one result per entry. -/
def runBatch (env : AgentEnv) (g : SkillExecutionGate) : List SkillCall → List HandlerOut
  | [] => []
  | c :: cs => agentCall env c g :: runBatch env (agentCall env c g).gate cs

/-- `POST /api/agent/skills/execute-all` (server.ts lines 162-222): one
`startNewInput` before the loop, never between entries; then every entry of
the batch runs against that single shared gate session. -/
def executeAll (env : AgentEnv) (inputId : String) (entries : List SkillCall)
    (g : SkillExecutionGate) : List HandlerOut :=
  runBatch env (startNewInput g inputId) entries

theorem agentCall_contract (env : AgentEnv) (c : SkillCall) :
    handlerContract (agentCall env c) c.name := by
  cases c with
  | indexDoc p => exact indexDocumentProcess_contract env.index env.cwd p
  | lookupDoc q => exact lookupDocumentProcess_contract env.lookup q
  | docInfo d => exact getDocumentInfoProcess_contract env.info d
  | purgeDocs => exact purgeDocumentsProcess_contract env.purge

theorem agentCall_denied (env : AgentEnv) (c : SkillCall) (g : SkillExecutionGate)
    (h : g.hasExecutedAnySkill = true) :
    agentCall env c g =
      ⟨getBlockedMessage g c.name, g, [.acquire c.name false], []⟩ := by
  have hc : (canExecute g c.name).1 = false := by
    rw [canExecute_of_flag g _ h]
  exact (agentCall_contract env c g).1 hc

theorem canExecute_fresh (g : SkillExecutionGate) (i s : String) :
    (canExecute (startNewInput g i) s).1 = true := by
  simp [canExecute, startNewInput]

theorem agentCall_flag (env : AgentEnv) (c : SkillCall) (g : SkillExecutionGate)
    (h : (canExecute g c.name).1 = true) :
    (agentCall env c g).gate.hasExecutedAnySkill = true := by
  have h2 := (agentCall_contract env c g).2 h
  rw [h2.2, markCompleted_flag]
  exact canExecute_granted_flag g c.name h

theorem agentCall_no_started (env : AgentEnv) (c : SkillCall) (g : SkillExecutionGate) :
    ∀ ev ∈ (agentCall env c g).events, ev.isStarted = false := by
  by_cases h : (canExecute g c.name).1 = true
  · rw [((agentCall_contract env c g).2 h).1]
    intro ev hev
    simp only [List.mem_cons, List.not_mem_nil, or_false] at hev
    rcases hev with rfl | rfl <;> rfl
  · rw [(agentCall_contract env c g).1 (by simpa using h)]
    intro ev hev
    simp only [List.mem_cons, List.not_mem_nil, or_false] at hev
    subst hev
    rfl

theorem runBatch_blocked (env : AgentEnv) (g : SkillExecutionGate) (cs : List SkillCall)
    (h : g.hasExecutedAnySkill = true) :
    runBatch env g cs = cs.map (fun c =>
      ⟨getBlockedMessage g c.name, g, [.acquire c.name false], []⟩) := by
  induction cs with
  | nil => rfl
  | cons c cs ih =>
      show agentCall env c g :: runBatch env (agentCall env c g).gate cs = _
      rw [List.map_cons, agentCall_denied env c g h]
      exact congrArg (List.cons _) ih

/-- **C6.** The execute-all batch shares one gate session: `startNewInput` is
called exactly once, before the first entry and never between entries (no
handler ever performs a session start); the first entry's handler acquires
the gate and runs; under the strict single-skill policy every later entry is
denied — its result is the gate's blocked message, its external dependency
is never invoked (`ext = []`) and the gate state is unchanged — while the
endpoint still returns one result item per entry. -/
theorem c6_batch_shares_one_gate_session
    (env : AgentEnv) (inputId : String) (g : SkillExecutionGate)
    (c : SkillCall) (rest : List SkillCall) :
    executeAll env inputId (c :: rest) g =
      agentCall env c (startNewInput g inputId) ::
        rest.map (fun c2 =>
          ⟨getBlockedMessage (agentCall env c (startNewInput g inputId)).gate c2.name,
            (agentCall env c (startNewInput g inputId)).gate,
            [.acquire c2.name false], []⟩) ∧
    (agentCall env c (startNewInput g inputId)).events.head? =
      some (.acquire c.name true) ∧
    (executeAll env inputId (c :: rest) g).length = rest.length + 1 ∧
    (∀ out ∈ executeAll env inputId (c :: rest) g, ∀ ev ∈ out.events,
      ev.isStarted = false) := by
  have hfresh : (canExecute (startNewInput g inputId) c.name).1 = true :=
    canExecute_fresh g inputId c.name
  have hflag : (agentCall env c (startNewInput g inputId)).gate.hasExecutedAnySkill = true :=
    agentCall_flag env c _ hfresh
  have h1 : executeAll env inputId (c :: rest) g =
      agentCall env c (startNewInput g inputId) ::
        rest.map (fun c2 =>
          ⟨getBlockedMessage (agentCall env c (startNewInput g inputId)).gate c2.name,
            (agentCall env c (startNewInput g inputId)).gate,
            [.acquire c2.name false], []⟩) := by
    simp only [executeAll, runBatch]
    exact congrArg (List.cons _) (runBatch_blocked env _ rest hflag)
  refine ⟨h1, ?_, ?_, ?_⟩
  · rw [((agentCall_contract env c _).2 hfresh).1]
    rfl
  · rw [h1]
    simp
  · rw [h1]
    intro out hout ev hev
    rcases List.mem_cons.mp hout with rfl | hout
    · exact agentCall_no_started env c _ ev hev
    · obtain ⟨c2, _, rfl⟩ := List.mem_map.mp hout
      simp only [List.mem_cons, List.not_mem_nil, or_false] at hev
      subst hev
      rfl
